import Mathlib

/-!
Verification of `src/acoustic_no/utils/eval.py`.

The file shallowly embeds the evaluation module of the repository:
tensors are lists of rationals (a 2D spatial field is kept flattened as a
`List ℚ`; a temporal tensor is a `List` of such frames), predictors are pure
Lean functions, and the Python scalar-accumulator arithmetic — where a
division by a zero denominator produces an IEEE non-finite value (for
tensor ops) or a `ZeroDivisionError` (for plain Python floats) — is made
explicit.  Loss functions provided by external libraries (`neuralop`'s
`LpLoss`/`H1Loss`, `torch.norm`'s square root) are abstract parameters;
in-repository arithmetic (`torch.nn.MSELoss` = mean of squared elementwise
differences, maximum absolute error, elementwise difference) is modelled
concretely following its documented semantics.
-/

namespace AcousticEval

/-- A single spatial field (a `[H, W]` tensor, flattened). -/
abbrev Frame : Type := List ℚ

/-- One dataset sample: input tensor `x` and target tensor `y`, each a list
of `depth` temporal frames (auxiliary channels of `x` are included in its
frames; the rollout only ever touches whole frames, so the flattening is
irrelevant to it). -/
structure Sample where
  x : List Frame
  y : List Frame
deriving DecidableEq, Inhabited

/-- An `AcousticDataset`: `len(dataset) = samples.length`, with the shared
temporal window length `dataset.depth`.  Indexing `dataset[i]` is defined
for `i ∈ [0, len)` (spec §6); an out-of-range index is a lookup failure. -/
structure Dataset where
  samples : List Sample
  depth : ℕ
deriving DecidableEq, Inhabited

/-- Flatten a temporal tensor to the plain list of its scalar entries
(used where the Python code treats a whole tensor elementwise). -/
def tFlat (t : List Frame) : List ℚ := t.flatten

/-- Python slice `l[a:b]` for `0 ≤ a ≤ b` (clamped at the tail). -/
def pySlice {α : Type} (l : List α) (a b : ℕ) : List α :=
  (l.drop a).take (b - a)

/-- `t[-1]`: the last frame of a temporal tensor (the tensors this is
applied to are nonempty in every reachable state). -/
def lastFrame (t : List Frame) : Frame := t.getLastD []

/-- A Python float scalar: either a finite value or the non-finite result
(`inf`/`nan`) that IEEE-754 tensor arithmetic produces on division by a
zero denominator.  `torch` never raises on such a division; the non-finite
value simply propagates through further sums and divisions. -/
inductive FVal where
  | fin : ℚ → FVal
  | nonfinite : FVal
deriving DecidableEq, Inhabited

namespace FVal

/-- Float addition: a non-finite summand makes the sum non-finite. -/
def add : FVal → FVal → FVal
  | fin a, fin b => fin (a + b)
  | _, _ => nonfinite

/-- Float division: a zero denominator yields a non-finite value
(`inf` or `nan`); non-finite operands stay non-finite. -/
def div : FVal → FVal → FVal
  | fin a, fin b => if b = 0 then nonfinite else fin (a / b)
  | _, _ => nonfinite

/-- Division of an accumulator by a positive sample count. -/
def divN (v : FVal) (n : ℕ) : FVal := div v (fin n)

end FVal

/-- Elementwise difference of two equally-shaped tensors. -/
def subQ (p t : List ℚ) : List ℚ := List.zipWith (fun a b => a - b) p t

/-- Sum of squares of the entries. -/
def sumSq (v : List ℚ) : ℚ := (v.map (fun a => a * a)).sum

/-- `torch.nn.MSELoss` (external, documented semantics): mean of the
squared elementwise differences. -/
def mseQ (p t : List ℚ) : ℚ := sumSq (subQ p t) / (subQ p t).length

/-- `torch.max(torch.abs(p - t))`: maximum absolute elementwise
difference. -/
def maxAbsError (p t : List ℚ) : ℚ := ((subQ p t).map (fun a => |a|)).foldr max 0

/-- `torch.norm(v, p=2)` (external): the 2-norm, i.e. `sqrtFn` — an abstract
parameter standing for the real square root — applied to the sum of
squares.  The only fact the development uses about `sqrtFn` is
`sqrtFn 0 = 0` (the norm of a zero tensor is zero). -/
def norm2 (sqrtFn : ℚ → ℚ) (v : List ℚ) : ℚ := sqrtFn (sumSq v)

/-- A predictor as used by `evaluate_models`: a pure function on flattened
tensors (the leading batch dimension of size one is dropped). -/
abbrev ModelFn : Type := List ℚ → List ℚ

/-- An external loss function (`neuralop`'s `LpLoss(d=2,p=2)` or
`H1Loss(d=2)`): an abstract map from a (prediction, target) pair to a
scalar. -/
abbrev LossFn : Type := List ℚ → List ℚ → ℚ

/-- The five running accumulators kept per model name in
`evaluate_models`. -/
structure MetricRecord where
  mse : FVal
  l2_loss : FVal
  h1_loss : FVal
  rel_l2 : FVal
  max_error : FVal
deriving DecidableEq, Inhabited

/-- The dictionary entry `{"mse": 0.0, ...}` created for every model. -/
def zeroRecord : MetricRecord :=
  { mse := .fin 0, l2_loss := .fin 0, h1_loss := .fin 0
  , rel_l2 := .fin 0, max_error := .fin 0 }

/-- Fieldwise `+=` on a metric record. -/
def addRecord (a b : MetricRecord) : MetricRecord :=
  { mse := a.mse.add b.mse, l2_loss := a.l2_loss.add b.l2_loss
  , h1_loss := a.h1_loss.add b.h1_loss, rel_l2 := a.rel_l2.add b.rel_l2
  , max_error := a.max_error.add b.max_error }

/-- Fieldwise division of the accumulators by the sample count. -/
def divRecord (a : MetricRecord) (n : ℕ) : MetricRecord :=
  { mse := a.mse.divN n, l2_loss := a.l2_loss.divN n
  , h1_loss := a.h1_loss.divN n, rel_l2 := a.rel_l2.divN n
  , max_error := a.max_error.divN n }

/-- The five per-sample metric values of `evaluate_models` (lines 59–67):
`y_pred = model(x)`, then `mse`, `l2`, `h1`, the directly computed
`rel_l2 = torch.norm(y_pred - y_true) / torch.norm(y_true)` — a tensor
division, hence non-finite (not an exception) on a zero-norm target — and
`max_error`. -/
def sampleMetrics (sqrtFn : ℚ → ℚ) (l2f h1f : LossFn) (m : ModelFn)
    (x y_true : List ℚ) : MetricRecord :=
  let y_pred := m x
  { mse := .fin (mseQ y_pred y_true)
  , l2_loss := .fin (l2f y_pred y_true)
  , h1_loss := .fin (h1f y_pred y_true)
  , rel_l2 := FVal.div (.fin (norm2 sqrtFn (subQ y_pred y_true)))
      (.fin (norm2 sqrtFn y_true))
  , max_error := .fin (maxAbsError y_pred y_true) }

/-- The inner `for name, model in models.items()` loop of `evaluate_models`
for one sample `i`: each model is invoked once (recorded in the call
trace) and its five metric values are added into that model's record.
The results dictionary is a function from names to records. -/
def evalStep (sqrtFn : ℚ → ℚ) (l2f h1f : LossFn)
    (models : List (String × ModelFn)) (i : ℕ) (smp : Sample)
    (acc : (String → MetricRecord) × List (ℕ × String)) :
    (String → MetricRecord) × List (ℕ × String) :=
  models.foldl
    (fun acc2 nm =>
      (fun n => if n = nm.1 then
          addRecord (acc2.1 nm.1)
            (sampleMetrics sqrtFn l2f h1f nm.2 (tFlat smp.x) (tFlat smp.y))
        else acc2.1 n,
       acc2.2 ++ [(i, nm.1)]))
    acc

/-- The outer `for i in range(N)` loop of `evaluate_models` (lines 52–67):
samples are visited in source order, models inside each sample. -/
def evalLoop (sqrtFn : ℚ → ℚ) (l2f h1f : LossFn)
    (models : List (String × ModelFn)) (samples : List Sample) :
    (String → MetricRecord) × List (ℕ × String) :=
  samples.enum.foldl
    (fun acc p => evalStep sqrtFn l2f h1f models p.1 p.2 acc)
    (fun _ => zeroRecord, [])

/-- `evaluate_models` (lines 10–88).  Returns the per-model averaged
records in model order together with the trace of predictor invocations.
The final `results[name][...] /= N` loop divides plain Python floats by
the integer `N`, which raises `ZeroDivisionError` when `N = 0` — but only
if there is at least one name to iterate over. -/
def evaluate_models (sqrtFn : ℚ → ℚ) (l2f h1f : LossFn)
    (models : List (String × ModelFn)) (ds : Dataset) :
    Except String (List (String × MetricRecord) × List (ℕ × String)) :=
  let N := ds.samples.length
  let st := evalLoop sqrtFn l2f h1f models ds.samples
  (models.mapM (fun nm =>
    if N = 0 then Except.error "ZeroDivisionError: float division by zero"
    else Except.ok (nm.1, divRecord (st.1 nm.1) N))).map
    (fun res => (res, st.2))

/-- A predictor as used by the rollout: a pure function from a temporal
input tensor (list of frames) to a temporal output tensor; the squeezed
batch dimension is dropped. -/
abbrev TModel : Type := List Frame → List Frame

/-- One iteration of the `while i < len(dataset)` loop of
`sample_iterative` (lines 313–334), recorded for verification: the window
start index `i`, the cloned input after `x[0] = init_cond`, the model's
prediction, and the two emitted buffers `p[:-1]` and `pred[:-1]`. -/
structure WindowTrace where
  start : ℕ
  input : List Frame
  pred : List Frame
  emitted_true : List Frame
  emitted_pred : List Frame
deriving DecidableEq, Inhabited

/-- The body of one rollout window at start index `i` with carried state
`seed` (lines 316–332): clone `x`, overwrite its first temporal frame with
the carried initial condition, invoke the model, and emit all but the last
frame of target and prediction. -/
def runWindow (M : TModel) (smp : Sample) (seed : Frame) (i : ℕ) : WindowTrace :=
  let x := smp.x.set 0 seed
  let pred := M x
  { start := i, input := x, pred := pred
  , emitted_true := smp.y.dropLast, emitted_pred := pred.dropLast }

/-- The `while i < len(dataset)` loop of `sample_iterative`
(lines 313–334): after each window the carried state becomes `pred[-1]`
and `i` advances by `stride = depth - 1`.  `fuel` bounds the number of
iterations (each iteration advances `i` by `stride ≥ 1`, so
`samples.length` iterations always suffice; with `stride = 0` the Python
loop never terminates, which the model reports as `none`). -/
def rolloutLoop (M : TModel) (samples : List Sample) (stride : ℕ) :
    ℕ → Frame → ℕ → Option (List WindowTrace)
  | i, _, 0 => if i < samples.length then none else some []
  | i, seed, fuel + 1 =>
    if h : i < samples.length then
      let w := runWindow M (samples.get ⟨i, h⟩) seed i
      (rolloutLoop M samples stride (i + stride) (lastFrame w.pred) fuel).map
        (fun rest => w :: rest)
    else some []

/-- `sample_iterative` up to the stitching point (lines 304–334): fetch
`init_cond = dataset[0]["x"][0]` (an out-of-range index on an empty
dataset is a lookup failure), then run the windowed loop. -/
def sample_iterative_trace (M : TModel) (ds : Dataset) :
    Except String (List WindowTrace) :=
  match (ds.samples.get? 0).bind (fun s0 => s0.x.get? 0) with
  | none => Except.error "index out of range"
  | some init_cond =>
    match rolloutLoop M ds.samples (ds.depth - 1) 0 init_cond
        ds.samples.length with
    | none => Except.error "nontermination"
    | some tr => Except.ok tr

/-- Lines 336–338: `torch.stack` over the emitted buffers (raising on an
empty buffer list), flattening of the window dimension, and truncation of
the stitched sequences to the first `N` frames. -/
def stitchedOf (tr : List WindowTrace) (N : ℕ) : List Frame × List Frame :=
  (((tr.map (fun w => w.emitted_true)).flatten).take N,
   ((tr.map (fun w => w.emitted_pred)).flatten).take N)

/-- The stitched `(y_true, y_pred)` pair produced by `sample_iterative`. -/
def sample_iterative_stitched (M : TModel) (ds : Dataset) :
    Except String (List Frame × List Frame) :=
  match sample_iterative_trace M ds with
  | Except.error e => Except.error e
  | Except.ok tr =>
    if tr.isEmpty then Except.error "stack expects a non-empty TensorList"
    else Except.ok (stitchedOf tr ds.samples.length)

/-- The four averaged rollout metrics of the `compute_metrics` block. -/
structure RolloutMetrics where
  mse : ℚ
  l2_loss : ℚ
  h1_loss : ℚ
  max_error : ℚ
deriving DecidableEq, Inhabited

/-- The `compute_metrics` block of `sample_iterative` (lines 342–391):
iterate the aligned stitched pairs frame by frame, accumulate the four
per-frame metrics, and divide by `N` (this point is only reachable with
`N ≥ 1`). -/
def rolloutMetrics (l2f h1f : LossFn) (y_true y_pred : List Frame) (N : ℕ) :
    RolloutMetrics :=
  let t := (List.range N).foldl
    (fun acc i =>
      let y := y_true.getD i []
      let pred := y_pred.getD i []
      { mse := acc.mse + mseQ pred y
      , l2_loss := acc.l2_loss + l2f pred y
      , h1_loss := acc.h1_loss + h1f pred y
      , max_error := acc.max_error + maxAbsError pred y : RolloutMetrics })
    ⟨0, 0, 0, 0⟩
  ⟨t.mse / N, t.l2_loss / N, t.h1_loss / N, t.max_error / N⟩

/-- The presentation windowing of `sample_iterative` (lines 393–413),
applied to the already stitched `(y_pred, y_true)` pair after any metric
computation: `y_pred[index:index+depth]` for `"pressure"` (default index
`N // 2`) and for `"error"` when an index was given, and
`y_pred[N//2 : N//2+index]` for `"animation"` (default index `depth`). -/
def windowForKind (kind : String) (index : Option ℕ) (N depth : ℕ)
    (y_pred y_true : List Frame) : List Frame × List Frame :=
  if kind = "pressure" then
    let idx := index.getD (N / 2)
    (pySlice y_pred idx (idx + depth), pySlice y_true idx (idx + depth))
  else if h : kind = "error" ∧ index.isSome then
    let idx := index.get h.2
    (pySlice y_pred idx (idx + depth), pySlice y_true idx (idx + depth))
  else if kind = "animation" then
    let idx := index.getD depth
    (pySlice y_pred (N / 2) (N / 2 + idx), pySlice y_true (N / 2) (N / 2 + idx))
  else (y_pred, y_true)

/-- `sample_iterative` end to end (minus the final external rendering
call): stitch, optionally compute the metrics from the full stitched
sequences, then apply the presentation windowing.  Returns the optional
metrics and the windowed `(y_true, y_pred)` pair. -/
def sample_iterative_run (l2f h1f : LossFn) (M : TModel) (ds : Dataset)
    (kind : String) (compute_metrics : Bool) (index : Option ℕ) :
    Except String (Option RolloutMetrics × (List Frame × List Frame)) :=
  match sample_iterative_stitched M ds with
  | Except.error e => Except.error e
  | Except.ok yt_yp =>
    let N := ds.samples.length
    let m := if compute_metrics then
        some (rolloutMetrics l2f h1f yt_yp.1 yt_yp.2 N)
      else none
    let w := windowForKind kind index N ds.depth yt_yp.2 yt_yp.1
    Except.ok (m, (w.2, w.1))

/-- The three rendering branches of `plot_inference_results_direct`. -/
inductive PlotBranch where
  | pressure
  | animation
  | errorPlot
deriving DecidableEq, Inhabited

/-- The `kind` dispatch of `plot_inference_results_direct`
(lines 152–235): each of the three recognized kinds selects its rendering
branch (the rendering itself is an external collaborator, spec §6); any
other string is rejected immediately with a `ValueError`. -/
def plot_inference_results_direct (kind : String) : Except String PlotBranch :=
  if kind = "pressure" then Except.ok PlotBranch.pressure
  else if kind = "animation" then Except.ok PlotBranch.animation
  else if kind = "error" then Except.ok PlotBranch.errorPlot
  else Except.error
    ("Unknown kind: " ++ kind ++ ". Choose from 'pressure', 'animation', or 'error'.")

/-! ### Concrete data used by the witnesses -/

/-- Identity temporal predictor. -/
def idTM : TModel := fun t => t

/-- A concrete dataset with `N = 5`, `D = 3`: sample `i` has input frames
`[i], [i+10], [i+20]` and target frames `[i], [i+1], [i+2]`. -/
def ds53 : Dataset :=
  { samples :=
      [ { x := [[0], [10], [20]], y := [[0], [1], [2]] }
      , { x := [[1], [11], [21]], y := [[1], [2], [3]] }
      , { x := [[2], [12], [22]], y := [[2], [3], [4]] }
      , { x := [[3], [13], [23]], y := [[3], [4], [5]] }
      , { x := [[4], [14], [24]], y := [[4], [5], [6]] } ]
  , depth := 3 }

/-- The empty dataset (`N = 0`). -/
def emptyDS : Dataset := { samples := [], depth := 2 }

/-- A dataset with a single one-frame sample whose input and target
coincide. -/
def dsOne : Dataset := { samples := [ { x := [[1]], y := [[1]] } ], depth := 2 }

/-- A dataset with a single sample whose target tensor is identically
zero. -/
def dsZeroTarget : Dataset := { samples := [ { x := [[1]], y := [[0]] } ], depth := 2 }

/-- The carried initial condition seen by window `w` of a recorded trace:
the incoming condition for window `0`, and the last predicted frame of
window `w - 1` afterwards. -/
def prevSeed (tr : List WindowTrace) (c : Frame) : ℕ → Frame
  | 0 => c
  | w + 1 => lastFrame ((tr.getD w default).pred)

/-! ### Helper lemmas -/

theorem prevSeed_cons (t : WindowTrace) (tr : List WindowTrace) (c : Frame)
    (w : ℕ) : prevSeed (t :: tr) c (w + 1) = prevSeed tr (lastFrame t.pred) w := by
  cases w with
  | zero => simp [prevSeed]
  | succ w => simp [prevSeed]

theorem set_get?_zero (x : List Frame) (c : Frame) (hx : x ≠ []) :
    (x.set 0 c).get? 0 = some c := by
  cases x with
  | nil => exact absurd rfl hx
  | cons a l => simp

theorem rolloutLoop_isSome (M : TModel) (S : List Sample) (s : ℕ)
    (hs : 0 < s) :
    ∀ (fuel i : ℕ) (c : Frame), S.length - i ≤ fuel →
      ∃ tr, rolloutLoop M S s i c fuel = some tr := by
  intro fuel
  induction fuel with
  | zero =>
    intro i c hf
    refine ⟨[], ?_⟩
    simp only [rolloutLoop]
    have : ¬ i < S.length := by omega
    simp [this]
  | succ fuel ih =>
    intro i c hf
    by_cases h : i < S.length
    · obtain ⟨tr, htr⟩ := ih (i + s) (lastFrame (runWindow M S[i] c i).pred)
        (by omega)
      exact ⟨runWindow M S[i] c i :: tr, by simp [rolloutLoop, h, htr]⟩
    · exact ⟨[], by simp [rolloutLoop, h]⟩

theorem rolloutLoop_spec (M : TModel) (S : List Sample) (s : ℕ) (hs : 0 < s) :
    ∀ (fuel i : ℕ) (c : Frame) (tr : List WindowTrace),
      S.length - i ≤ fuel →
      rolloutLoop M S s i c fuel = some tr →
      (∀ w : ℕ, w < tr.length ↔ i + s * w < S.length) ∧
      (∀ w : ℕ, w < tr.length →
        tr.getD w default =
          runWindow M (S.getD (i + s * w) default) (prevSeed tr c w) (i + s * w)) := by
  intro fuel
  induction fuel with
  | zero =>
    intro i c tr hf hloop
    have hi : ¬ i < S.length := by omega
    simp only [rolloutLoop, hi, if_false] at hloop
    injection hloop with hloop
    subst hloop
    constructor
    · intro w; simp; omega
    · intro w hw; simp at hw
  | succ fuel ih =>
    intro i c tr hf hloop
    by_cases h : i < S.length
    · simp only [rolloutLoop, h, dif_pos] at hloop
      rw [Option.map_eq_some'] at hloop
      obtain ⟨tr', hrec, rfl⟩ := hloop
      obtain ⟨ih1, ih2⟩ := ih (i + s) (lastFrame (runWindow M S[i] c i).pred)
        tr' (by omega) hrec
      constructor
      · intro w
        cases w with
        | zero => simpa using h
        | succ w =>
          have := ih1 w
          simp only [List.length_cons]
          constructor
          · intro hw
            have := this.mp (by omega)
            have hsw : s * (w + 1) = s * w + s := by ring
            omega
          · intro hw
            have hsw : s * (w + 1) = s * w + s := by ring
            have := this.mpr (by omega)
            omega
      · intro w hw
        cases w with
        | zero =>
          simp [prevSeed, List.getElem?_eq_getElem, h]
        | succ w =>
          have hw' : w < tr'.length := by
            simp only [List.length_cons] at hw; omega
          have := ih2 w hw'
          have hidx : i + s + s * w = i + s * (w + 1) := by ring
          rw [hidx] at this
          have hseed : prevSeed (runWindow M S[i] c i :: tr') c (w + 1) =
              prevSeed tr' (lastFrame (runWindow M S[i] c i).pred) w :=
            prevSeed_cons _ _ _ _
          simpa [hseed] using this
    · simp only [rolloutLoop, h, dif_neg, not_false_iff] at hloop
      injection hloop with hloop
      subst hloop
      constructor
      · intro w; simp; omega
      · intro w hw; simp at hw

theorem getD_mem {α : Type} [Inhabited α] (l : List α) (i : ℕ) (h : i < l.length) :
    l.getD i default ∈ l := by
  rw [List.getD_eq_getElem l default h]
  exact List.getElem_mem h

theorem sample_iterative_trace_spec (M : TModel) (ds : Dataset)
    (hD : 2 ≤ ds.depth) (hN : 0 < ds.samples.length)
    (hx0 : ∀ smp ∈ ds.samples, smp.x ≠ []) :
    ∃ tr s0 c, sample_iterative_trace M ds = Except.ok tr ∧
      ds.samples.get? 0 = some s0 ∧ s0.x.get? 0 = some c ∧
      (∀ w : ℕ, w < tr.length ↔ (ds.depth - 1) * w < ds.samples.length) ∧
      (∀ w : ℕ, w < tr.length →
        tr.getD w default =
          runWindow M (ds.samples.getD ((ds.depth - 1) * w) default)
            (prevSeed tr c w) ((ds.depth - 1) * w)) := by
  have hs : 0 < ds.depth - 1 := by omega
  have h0 : ds.samples.get? 0 = some (ds.samples.getD 0 default) := by
    rw [List.getD_eq_getElem ds.samples default hN]
    exact List.get?_eq_get hN
  have hxne : (ds.samples.getD 0 default).x ≠ [] :=
    hx0 _ (getD_mem ds.samples 0 hN)
  have hxpos : 0 < (ds.samples.getD 0 default).x.length := List.length_pos.mpr hxne
  have hc : (ds.samples.getD 0 default).x.get? 0 =
      some ((ds.samples.getD 0 default).x.getD 0 default) := by
    rw [List.getD_eq_getElem _ default hxpos]
    exact List.get?_eq_get hxpos
  obtain ⟨tr, hloop⟩ := rolloutLoop_isSome M ds.samples (ds.depth - 1) hs
    ds.samples.length 0 ((ds.samples.getD 0 default).x.getD 0 default) (by omega)
  obtain ⟨hiff, hchar⟩ := rolloutLoop_spec M ds.samples (ds.depth - 1) hs
    ds.samples.length 0 _ tr (by omega) hloop
  refine ⟨tr, ds.samples.getD 0 default, (ds.samples.getD 0 default).x.getD 0 default,
    ?_, h0, hc, ?_, ?_⟩
  · unfold sample_iterative_trace
    rw [h0]
    simp only [Option.some_bind, hc, hloop]
  · intro w
    have h1 := hiff w
    constructor
    · intro hw; have := h1.mp hw; omega
    · intro hw; exact h1.mpr (by omega)
  · intro w hw
    have := hchar w hw
    have hz : (0 : ℕ) + (ds.depth - 1) * w = (ds.depth - 1) * w := by omega
    rw [hz] at this
    exact this

theorem trace_emitted_lengths (M : TModel) (ds : Dataset) (tr : List WindowTrace)
    (c : Frame)
    (hx : ∀ smp ∈ ds.samples, smp.x.length = ds.depth)
    (hy : ∀ smp ∈ ds.samples, smp.y.length = ds.depth)
    (hm : ∀ t, (M t).length = t.length)
    (hiff : ∀ w : ℕ, w < tr.length ↔ (ds.depth - 1) * w < ds.samples.length)
    (hchar : ∀ w : ℕ, w < tr.length →
      tr.getD w default =
        runWindow M (ds.samples.getD ((ds.depth - 1) * w) default)
          (prevSeed tr c w) ((ds.depth - 1) * w)) :
    ∀ w : ℕ, w < tr.length →
      (tr.getD w default).emitted_true.length = ds.depth - 1 ∧
      (tr.getD w default).emitted_pred.length = ds.depth - 1 := by
  intro w hw
  have hlt : (ds.depth - 1) * w < ds.samples.length := (hiff w).mp hw
  have hmem : ds.samples.getD ((ds.depth - 1) * w) default ∈ ds.samples :=
    getD_mem ds.samples _ hlt
  have hylen := hy _ hmem
  have hxlen := hx _ hmem
  rw [hchar w hw]
  constructor
  · simp only [runWindow, List.length_dropLast]
    omega
  · simp only [runWindow, List.length_dropLast]
    rw [hm, List.length_set]
    omega

theorem flatten_get_uniform {α : Type} (s : ℕ) :
    ∀ (xss : List (List α)), (∀ l ∈ xss, l.length = s) →
    ∀ (q r : ℕ), r < s →
      (xss.flatten).get? (s * q + r) = (xss.get? q).bind (fun l => l.get? r) := by
  intro xss
  induction xss with
  | nil => intro _ q r _; simp
  | cons xs xss ih =>
    intro hlen q r hr
    have hxs : xs.length = s := hlen xs (by simp)
    cases q with
    | zero =>
      have hidx : s * 0 + r = r := by ring
      rw [hidx]
      simp only [List.flatten_cons, List.get?_cons_zero]
      rw [List.get?_append (by omega)]
      rfl
    | succ q =>
      have hidx : s * (q + 1) + r = xs.length + (s * q + r) := by
        rw [hxs]; ring
      rw [hidx]
      simp only [List.flatten_cons, List.get?_cons_succ]
      rw [List.get?_append_right (by omega)]
      have : xs.length + (s * q + r) - xs.length = s * q + r := by omega
      rw [this]
      exact ih (fun l hl => hlen l (by simp [hl])) q r hr

theorem trace_flatten_length (tr : List WindowTrace) (s : ℕ)
    (f : WindowTrace → List Frame)
    (hlen : ∀ w : ℕ, w < tr.length → (f (tr.getD w default)).length = s) :
    ((tr.map f).flatten).length = tr.length * s := by
  rw [List.length_flatten, List.map_map]
  have hrep : tr.map (List.length ∘ f) = List.replicate tr.length s := by
    rw [List.eq_replicate_iff]
    refine ⟨by simp, ?_⟩
    intro b hb
    obtain ⟨a, ha, rfl⟩ := List.mem_map.mp hb
    obtain ⟨n, hget⟩ := List.mem_iff_get.mp ha
    have hl := hlen n.1 n.2
    rw [List.getD_eq_getElem tr default n.2] at hl
    rw [List.get_eq_getElem] at hget
    rw [← hget]
    exact hl
  rw [hrep, List.sum_replicate, smul_eq_mul]

theorem trace_covers (ds : Dataset) (tr : List WindowTrace)
    (hiff : ∀ w : ℕ, w < tr.length ↔ (ds.depth - 1) * w < ds.samples.length) :
    ds.samples.length ≤ tr.length * (ds.depth - 1) := by
  have h2 : ¬ tr.length < tr.length := lt_irrefl _
  have h3 : ¬ (ds.depth - 1) * tr.length < ds.samples.length :=
    fun hc => h2 ((hiff tr.length).mpr hc)
  rw [mul_comm]
  omega

/-- C1: for every dataset with `N ≥ 1` samples and depth `D ≥ 2` (all
sample tensors of temporal length `D`, the model temporal-length
preserving), `sample_iterative` succeeds; its windows start at
`0, D-1, 2(D-1), …` exactly while the start index stays below `N`; every
window emits `D-1` frames into each buffer; and the stitched `y_true` and
`y_pred` sequences — the flattened concatenation truncated by `take N`,
which discards trailing, never leading, frames — have length exactly
`N`. -/
theorem rollout_stitched_length (M : TModel) (ds : Dataset)
    (hD : 2 ≤ ds.depth) (hN : 0 < ds.samples.length)
    (hx : ∀ smp ∈ ds.samples, smp.x.length = ds.depth)
    (hy : ∀ smp ∈ ds.samples, smp.y.length = ds.depth)
    (hm : ∀ t, (M t).length = t.length) :
    ∃ tr, sample_iterative_trace M ds = Except.ok tr ∧
      sample_iterative_stitched M ds = Except.ok (stitchedOf tr ds.samples.length) ∧
      (∀ w : ℕ, w < tr.length ↔ (ds.depth - 1) * w < ds.samples.length) ∧
      tr.map (fun w => w.start) =
        (List.range tr.length).map (fun w => (ds.depth - 1) * w) ∧
      (∀ w : ℕ, w < tr.length →
        (tr.getD w default).emitted_true.length = ds.depth - 1 ∧
        (tr.getD w default).emitted_pred.length = ds.depth - 1) ∧
      (stitchedOf tr ds.samples.length).1.length = ds.samples.length ∧
      (stitchedOf tr ds.samples.length).2.length = ds.samples.length := by
  have hx0 : ∀ smp ∈ ds.samples, smp.x ≠ [] := by
    intro smp hmem
    have := hx smp hmem
    intro hnil
    rw [hnil] at this
    simp at this
    omega
  obtain ⟨tr, s0, c, htr, h0, hc0, hiff, hchar⟩ :=
    sample_iterative_trace_spec M ds hD hN hx0
  have hlen := trace_emitted_lengths M ds tr c hx hy hm hiff hchar
  have htrne : tr ≠ [] := by
    have h1 : 0 < tr.length := (hiff 0).mpr (by omega)
    exact List.ne_nil_of_length_pos h1
  have hcover := trace_covers ds tr hiff
  have hflat1 : ((tr.map (fun w => w.emitted_true)).flatten).length =
      tr.length * (ds.depth - 1) :=
    trace_flatten_length tr (ds.depth - 1) _ (fun w hw => (hlen w hw).1)
  have hflat2 : ((tr.map (fun w => w.emitted_pred)).flatten).length =
      tr.length * (ds.depth - 1) :=
    trace_flatten_length tr (ds.depth - 1) _ (fun w hw => (hlen w hw).2)
  refine ⟨tr, htr, ?_, hiff, ?_, hlen, ?_, ?_⟩
  · unfold sample_iterative_stitched
    rw [htr]
    simp [htrne]
  · refine List.ext_get?_iff.mpr ?_
    intro n
    by_cases hn : n < tr.length
    · rw [List.get?_map, List.get?_map, List.get?_range (by simpa using hn)]
      have hget : tr.get? n = some (tr.getD n default) := by
        rw [List.getD_eq_getElem tr default hn]
        exact List.get?_eq_get hn
      rw [hget, hchar n hn]
      simp [runWindow]
    · rw [List.get?_map, List.get?_map]
      rw [List.get?_eq_none.mpr (by simpa using hn),
        List.get?_eq_none.mpr (by simpa using hn)]
      rfl
  · simp only [stitchedOf, List.length_take, hflat1]
    omega
  · simp only [stitchedOf, List.length_take, hflat2]
    omega

/-- C2: the rollout threads its carried state correctly: the first
window's input frame 0 is frame 0 of `source[0].x` (the dataset's own
initial condition), every window's prediction is the model applied to the
clone whose first temporal frame was overwritten, and for every window
`w ≥ 1` the predictor's input frame 0 equals the last predicted frame of
window `w - 1`. -/
theorem rollout_state_threading (M : TModel) (ds : Dataset)
    (hD : 2 ≤ ds.depth) (hN : 0 < ds.samples.length)
    (hx0 : ∀ smp ∈ ds.samples, smp.x ≠ []) :
    ∃ tr s0, sample_iterative_trace M ds = Except.ok tr ∧
      ds.samples.get? 0 = some s0 ∧ tr ≠ [] ∧
      (tr.getD 0 default).input.get? 0 = s0.x.get? 0 ∧
      (∀ w : ℕ, w < tr.length →
        (tr.getD w default).input =
          (ds.samples.getD ((ds.depth - 1) * w) default).x.set 0
            (prevSeed tr ((tr.getD 0 default).input.getD 0 default) w) ∧
        (tr.getD w default).pred = M ((tr.getD w default).input)) ∧
      (∀ w : ℕ, w + 1 < tr.length →
        (tr.getD (w + 1) default).input.get? 0 =
          some (lastFrame ((tr.getD w default).pred))) := by
  obtain ⟨tr, s0, c, htr, h0, hc0, hiff, hchar⟩ :=
    sample_iterative_trace_spec M ds hD hN hx0
  have hxne : ∀ w : ℕ, w < tr.length →
      (ds.samples.getD ((ds.depth - 1) * w) default).x ≠ [] := by
    intro w hw
    exact hx0 _ (getD_mem ds.samples _ ((hiff w).mp hw))
  have htr0 : 0 < tr.length := (hiff 0).mpr (by omega)
  have hin : ∀ w : ℕ, (hw : w < tr.length) →
      (tr.getD w default).input.get? 0 = some (prevSeed tr c w) := by
    intro w hw
    rw [hchar w hw]
    simp only [runWindow]
    exact set_get?_zero _ _ (hxne w hw)
  have hin0 : (tr.getD 0 default).input.get? 0 = some c := by
    have := hin 0 htr0
    simpa [prevSeed] using this
  have hcc : (tr.getD 0 default).input.getD 0 default = c := by
    rw [List.getD_eq_getD_get?, hin0]
    rfl
  refine ⟨tr, s0, htr, h0, List.ne_nil_of_length_pos htr0, ?_, ?_, ?_⟩
  · rw [hin0, hc0]
  · intro w hw
    constructor
    · rw [hcc]
      conv_lhs => rw [hchar w hw]
      simp [runWindow]
    · conv_lhs => rw [hchar w hw]
      conv_rhs => rw [hchar w hw]
      simp [runWindow]
  · intro w hw
    have := hin (w + 1) hw
    rw [this]
    simp [prevSeed]

theorem map_forall_length (tr : List WindowTrace) (s : ℕ)
    (f : WindowTrace → List Frame)
    (hlen : ∀ w : ℕ, w < tr.length → (f (tr.getD w default)).length = s) :
    ∀ l ∈ tr.map f, l.length = s := by
  intro l hl
  obtain ⟨a, ha, rfl⟩ := List.mem_map.mp hl
  obtain ⟨n, hget⟩ := List.mem_iff_get.mp ha
  have hl2 := hlen n.1 n.2
  rw [List.getD_eq_getElem tr default n.2] at hl2
  rw [List.get_eq_getElem] at hget
  rw [← hget]
  exact hl2

theorem get?_map_getD (tr : List WindowTrace) (f : WindowTrace → List Frame)
    (q : ℕ) (hq : q < tr.length) :
    (tr.map f).get? q = some (f (tr.getD q default)) := by
  rw [List.get?_map]
  rw [List.getD_eq_getElem tr default hq]
  rw [List.get?_eq_get hq]
  rfl

theorem get?_dropLast {α : Type} (l : List α) (r : ℕ) (hr : r < l.length - 1) :
    l.dropLast.get? r = l.get? r := by
  rw [List.dropLast_eq_take]
  exact List.get?_take hr

/-- C3: every rollout window contributes exactly its first `D - 1` frames,
and the stitched sequences are index aligned: for every `k < N`, with
`i_w = (D-1) * (k / (D-1))` the start of the window containing `k`,
`y_true[k]` is frame `k - i_w` of `source[i_w].y` and `y_pred[k]` is frame
`k - i_w` of that window's prediction. -/
theorem rollout_stitched_alignment (M : TModel) (ds : Dataset)
    (hD : 2 ≤ ds.depth) (hN : 0 < ds.samples.length)
    (hx : ∀ smp ∈ ds.samples, smp.x.length = ds.depth)
    (hy : ∀ smp ∈ ds.samples, smp.y.length = ds.depth)
    (hm : ∀ t, (M t).length = t.length) :
    ∃ tr, sample_iterative_trace M ds = Except.ok tr ∧
      (∀ w : ℕ, w < tr.length →
        (tr.getD w default).emitted_true =
          (ds.samples.getD ((ds.depth - 1) * w) default).y.dropLast ∧
        (tr.getD w default).emitted_pred = (tr.getD w default).pred.dropLast ∧
        (tr.getD w default).emitted_true.length = ds.depth - 1) ∧
      ∀ k : ℕ, k < ds.samples.length →
        (stitchedOf tr ds.samples.length).1.get? k =
          (ds.samples.getD ((ds.depth - 1) * (k / (ds.depth - 1))) default).y.get?
            (k - (ds.depth - 1) * (k / (ds.depth - 1))) ∧
        (stitchedOf tr ds.samples.length).2.get? k =
          ((tr.getD (k / (ds.depth - 1)) default).pred).get?
            (k - (ds.depth - 1) * (k / (ds.depth - 1))) := by
  have hx0 : ∀ smp ∈ ds.samples, smp.x ≠ [] := by
    intro smp hmem hnil
    have := hx smp hmem
    rw [hnil] at this
    simp at this
    omega
  obtain ⟨tr, s0, c, htr, h0, hc0, hiff, hchar⟩ :=
    sample_iterative_trace_spec M ds hD hN hx0
  have hlen := trace_emitted_lengths M ds tr c hx hy hm hiff hchar
  refine ⟨tr, htr, ?_, ?_⟩
  · intro w hw
    refine ⟨?_, ?_, (hlen w hw).1⟩
    · rw [hchar w hw]
      rfl
    · conv_lhs => rw [hchar w hw]
      conv_rhs => rw [hchar w hw]
      rfl
  intro k hk
  set s := ds.depth - 1 with hsdef
  have hs : 0 < s := by omega
  set q := k / s with hqdef
  have hr : k % s < s := Nat.mod_lt k hs
  have hdm : s * q + k % s = k := Nat.div_add_mod k s
  have hqlt : q < tr.length := by
    refine (hiff q).mpr ?_
    have h1 : s * q ≤ k := by omega
    omega
  have hmemq : ds.samples.getD (s * q) default ∈ ds.samples :=
    getD_mem ds.samples _ ((hiff q).mp hqlt)
  have hylen : (ds.samples.getD (s * q) default).y.length = ds.depth :=
    hy _ hmemq
  have hxlen : (ds.samples.getD (s * q) default).x.length = ds.depth :=
    hx _ hmemq
  have hcq := hchar q hqlt
  have hksub : k - s * q = k % s := by omega
  constructor
  · simp only [stitchedOf]
    rw [List.get?_take hk]
    rw [show k = s * q + k % s from hdm.symm]
    rw [flatten_get_uniform s (tr.map (fun w => w.emitted_true))
      (map_forall_length tr s _ (fun w hw => (hlen w hw).1)) q (k % s) hr]
    rw [get?_map_getD tr _ q hqlt]
    rw [hcq]
    simp only [runWindow, Option.some_bind]
    rw [get?_dropLast _ _ (by omega)]
    congr 1
    omega
  · simp only [stitchedOf]
    rw [List.get?_take hk]
    rw [show k = s * q + k % s from hdm.symm]
    rw [flatten_get_uniform s (tr.map (fun w => w.emitted_pred))
      (map_forall_length tr s _ (fun w hw => (hlen w hw).2)) q (k % s) hr]
    rw [get?_map_getD tr _ q hqlt]
    have hplen : (tr.getD q default).pred.length = ds.depth := by
      rw [hcq]
      simp only [runWindow]
      rw [hm, List.length_set]
      exact hxlen
    conv_lhs => rw [hcq]
    simp only [runWindow, Option.some_bind]
    rw [show (M ((ds.samples.getD (s * q) default).x.set 0 (prevSeed tr c q))) =
        (tr.getD q default).pred from by rw [hcq]; rfl]
    rw [get?_dropLast _ _ (by omega)]
    congr 1
    omega

/-- Witness: the rollout length theorem applied to the concrete `N = 5`,
`D = 3` dataset with the identity model. -/
theorem rollout_stitched_length_witness :
    2 ≤ ds53.depth ∧ 0 < ds53.samples.length ∧
    ∃ tr, sample_iterative_trace idTM ds53 = Except.ok tr ∧
      (stitchedOf tr ds53.samples.length).1.length = ds53.samples.length := by
  refine ⟨by decide, by decide, ?_⟩
  obtain ⟨tr, h1, _, _, _, _, h6, _⟩ :=
    rollout_stitched_length idTM ds53 (by decide) (by decide) (by decide) (by decide)
      (fun t => rfl)
  exact ⟨tr, h1, h6⟩

/-- Witness: the state-threading theorem applied to the `N = 5`, `D = 3`
dataset with the identity model. -/
theorem rollout_state_threading_witness :
    ∃ tr s0, sample_iterative_trace idTM ds53 = Except.ok tr ∧
      ds53.samples.get? 0 = some s0 ∧ tr ≠ [] ∧
      (tr.getD 0 default).input.get? 0 = s0.x.get? 0 := by
  obtain ⟨tr, s0, h1, h2, h3, h4, _, _⟩ :=
    rollout_state_threading idTM ds53 (by decide) (by decide) (by decide)
  exact ⟨tr, s0, h1, h2, h3, h4⟩

/-- Witness: the alignment theorem applied at stitched position `k = 3` of
the `N = 5`, `D = 3` dataset (window start `2`, frame offset `1`). -/
theorem rollout_stitched_alignment_witness :
    ∃ tr, sample_iterative_trace idTM ds53 = Except.ok tr ∧
      (stitchedOf tr ds53.samples.length).1.get? 3 =
        (ds53.samples.getD 2 default).y.get? 1 ∧
      (stitchedOf tr ds53.samples.length).2.get? 3 =
        ((tr.getD 1 default).pred).get? 1 := by
  obtain ⟨tr, h1, _, h3⟩ :=
    rollout_stitched_alignment idTM ds53 (by decide) (by decide) (by decide) (by decide)
      (fun t => rfl)
  have h := h3 3 (by decide)
  rw [show ds53.depth = 3 from rfl] at h
  norm_num at h
  refine ⟨tr, h1, ?_, ?_⟩
  · simpa using h.1
  · simpa using h.2

theorem evalStep_trace (sqrtFn : ℚ → ℚ) (l2f h1f : LossFn)
    (models : List (String × ModelFn)) (i : ℕ) (smp : Sample) :
    ∀ acc, (evalStep sqrtFn l2f h1f models i smp acc).2 =
      acc.2 ++ models.map (fun p => (i, p.1)) := by
  unfold evalStep
  induction models with
  | nil => intro acc; simp
  | cons p rest ih =>
    intro acc
    simp only [List.foldl_cons, List.map_cons]
    rw [ih]
    simp

theorem evalStep_untouched (sqrtFn : ℚ → ℚ) (l2f h1f : LossFn)
    (models : List (String × ModelFn)) (i : ℕ) (smp : Sample) (nm : String)
    (hnm : nm ∉ models.map Prod.fst) :
    ∀ acc, (evalStep sqrtFn l2f h1f models i smp acc).1 nm = acc.1 nm := by
  unfold evalStep
  induction models with
  | nil => intro acc; simp
  | cons p rest ih =>
    intro acc
    simp only [List.map_cons, List.mem_cons] at hnm
    push_neg at hnm
    simp only [List.foldl_cons]
    rw [ih hnm.2]
    simp [hnm.1]

theorem evalStep_apply (sqrtFn : ℚ → ℚ) (l2f h1f : LossFn)
    (models : List (String × ModelFn)) (i : ℕ) (smp : Sample)
    (hnd : (models.map Prod.fst).Nodup) (nm : String) (m : ModelFn)
    (hmem : (nm, m) ∈ models) :
    ∀ acc, (evalStep sqrtFn l2f h1f models i smp acc).1 nm =
      addRecord (acc.1 nm)
        (sampleMetrics sqrtFn l2f h1f m (tFlat smp.x) (tFlat smp.y)) := by
  induction models with
  | nil => exact absurd hmem (List.not_mem_nil _)
  | cons p rest ih =>
    intro acc
    simp only [List.map_cons, List.nodup_cons] at hnd
    rcases List.mem_cons.mp hmem with heq | hrest
    · have hp1 : p.1 = nm := by rw [← heq]
      have hp2 : p.2 = m := by rw [← heq]
      have hout : nm ∉ rest.map Prod.fst := by rw [← hp1]; exact hnd.1
      unfold evalStep
      simp only [List.foldl_cons]
      have := evalStep_untouched sqrtFn l2f h1f rest i smp nm hout
      unfold evalStep at this
      rw [this]
      simp [hp1, hp2]
    · have hne : nm ≠ p.1 := by
        intro hcontra
        exact hnd.1 (hcontra ▸ (List.mem_map.mpr ⟨(nm, m), hrest, rfl⟩))
      have step := ih hnd.2 hrest
      unfold evalStep at step ⊢
      simp only [List.foldl_cons]
      rw [step]
      simp [hne]

theorem evalLoop_fold (sqrtFn : ℚ → ℚ) (l2f h1f : LossFn)
    (models : List (String × ModelFn))
    (hnd : (models.map Prod.fst).Nodup) (nm : String) (m : ModelFn)
    (hmem : (nm, m) ∈ models) :
    ∀ (ss : List (ℕ × Sample)) (acc : (String → MetricRecord) × List (ℕ × String)),
      (ss.foldl (fun a p => evalStep sqrtFn l2f h1f models p.1 p.2 a) acc).1 nm =
        (ss.map (fun p =>
          sampleMetrics sqrtFn l2f h1f m (tFlat p.2.x) (tFlat p.2.y))).foldl
          addRecord (acc.1 nm) := by
  intro ss
  induction ss with
  | nil => intro acc; simp
  | cons p rest ih =>
    intro acc
    simp only [List.foldl_cons, List.map_cons]
    rw [ih]
    rw [evalStep_apply sqrtFn l2f h1f models p.1 p.2 hnd nm m hmem]

theorem evalLoop_trace (sqrtFn : ℚ → ℚ) (l2f h1f : LossFn)
    (models : List (String × ModelFn)) :
    ∀ (ss : List (ℕ × Sample)) (acc : (String → MetricRecord) × List (ℕ × String)),
      (ss.foldl (fun a p => evalStep sqrtFn l2f h1f models p.1 p.2 a) acc).2 =
        acc.2 ++ ss.flatMap (fun p => models.map (fun q => (p.1, q.1))) := by
  intro ss
  induction ss with
  | nil => intro acc; simp
  | cons p rest ih =>
    intro acc
    simp only [List.foldl_cons, List.flatMap_cons]
    rw [ih]
    rw [evalStep_trace]
    simp

theorem mapM_ok {α β : Type} (g : α → β) :
    ∀ l : List α, (l.mapM (fun a => (Except.ok (g a) : Except String β))) =
      Except.ok (l.map g) := by
  intro l
  induction l with
  | nil => rfl
  | cons a rest ih =>
    rw [List.mapM_cons, ih]
    rfl

theorem evaluate_models_closed_form (sqrtFn : ℚ → ℚ) (l2f h1f : LossFn)
    (models : List (String × ModelFn)) (ds : Dataset)
    (hnd : (models.map Prod.fst).Nodup) (hN : ds.samples ≠ []) :
    evaluate_models sqrtFn l2f h1f models ds =
      Except.ok
        (models.map (fun p =>
          (p.1, divRecord
            ((ds.samples.map (fun smp =>
              sampleMetrics sqrtFn l2f h1f p.2 (tFlat smp.x) (tFlat smp.y))).foldl
              addRecord zeroRecord)
            ds.samples.length)),
         (List.range ds.samples.length).flatMap
           (fun i => models.map (fun p => (i, p.1)))) := by
  have hN0 : ds.samples.length ≠ 0 := fun hc => hN (List.length_eq_zero.mp hc)
  simp only [evaluate_models, hN0, if_false]
  have hres : ∀ p ∈ models,
      (evalLoop sqrtFn l2f h1f models ds.samples).1 p.1 =
        (ds.samples.map (fun smp =>
          sampleMetrics sqrtFn l2f h1f p.2 (tFlat smp.x) (tFlat smp.y))).foldl
          addRecord zeroRecord := by
    intro p hp
    unfold evalLoop
    rw [evalLoop_fold sqrtFn l2f h1f models hnd p.1 p.2 hp]
    have henum : ds.samples.enum.map (fun q : ℕ × Sample =>
        sampleMetrics sqrtFn l2f h1f p.2 (tFlat q.2.x) (tFlat q.2.y)) =
        ds.samples.map (fun smp =>
          sampleMetrics sqrtFn l2f h1f p.2 (tFlat smp.x) (tFlat smp.y)) := by
      rw [show (fun q : ℕ × Sample =>
          sampleMetrics sqrtFn l2f h1f p.2 (tFlat q.2.x) (tFlat q.2.y)) =
          (fun smp => sampleMetrics sqrtFn l2f h1f p.2 (tFlat smp.x) (tFlat smp.y)) ∘
            Prod.snd from rfl]
      rw [← List.map_map]
      rw [List.enum_map_snd]
    rw [henum]
  have htrace : (evalLoop sqrtFn l2f h1f models ds.samples).2 =
      (List.range ds.samples.length).flatMap
        (fun i => models.map (fun p => (i, p.1))) := by
    unfold evalLoop
    rw [evalLoop_trace]
    rw [← List.flatMap_map Prod.fst
      (fun i => List.map (fun q : String × ModelFn => (i, q.1)) models) ds.samples.enum]
    rw [List.enum_map_fst]
    simp
  rw [mapM_ok (fun nm : String × ModelFn =>
    (nm.1, divRecord ((evalLoop sqrtFn l2f h1f models ds.samples).1 nm.1)
      ds.samples.length)) models]
  rw [show ∀ x : List (String × MetricRecord),
      (Except.ok x : Except String (List (String × MetricRecord))).map
        (fun res => (res, (evalLoop sqrtFn l2f h1f models ds.samples).2)) =
      Except.ok (x, (evalLoop sqrtFn l2f h1f models ds.samples).2) from fun x => rfl]
  rw [htrace]
  have hmap : models.map (fun nm : String × ModelFn =>
      (nm.1, divRecord ((evalLoop sqrtFn l2f h1f models ds.samples).1 nm.1)
        ds.samples.length)) =
      models.map (fun p =>
        (p.1, divRecord
          ((ds.samples.map (fun smp =>
            sampleMetrics sqrtFn l2f h1f p.2 (tFlat smp.x) (tFlat smp.y))).foldl
            addRecord zeroRecord)
          ds.samples.length)) :=
    List.map_congr_left (fun p hp => by rw [hres p hp])
  rw [hmap]

theorem foldl_add_fin (qs : List ℚ) :
    ∀ b : ℚ, (qs.map FVal.fin).foldl FVal.add (FVal.fin b) = FVal.fin (b + qs.sum) := by
  induction qs with
  | nil => intro b; simp
  | cons a rest ih =>
    intro b
    simp only [List.map_cons, List.foldl_cons, List.sum_cons]
    rw [show FVal.add (FVal.fin b) (FVal.fin a) = FVal.fin (b + a) from rfl]
    rw [ih (b + a)]
    congr 1
    ring

theorem foldl_add_start_nonfinite (l : List FVal) :
    l.foldl FVal.add FVal.nonfinite = FVal.nonfinite := by
  induction l with
  | nil => rfl
  | cons v rest ih =>
    simp only [List.foldl_cons]
    rw [show FVal.add FVal.nonfinite v = FVal.nonfinite from by cases v <;> rfl]
    exact ih

theorem foldl_add_nonfinite_mem (l : List FVal) :
    ∀ b : FVal, FVal.nonfinite ∈ l → l.foldl FVal.add b = FVal.nonfinite := by
  induction l with
  | nil => intro b hb; simp at hb
  | cons v rest ih =>
    intro b hb
    rcases List.mem_cons.mp hb with heq | hmem
    · simp only [List.foldl_cons, ← heq]
      rw [show FVal.add b FVal.nonfinite = FVal.nonfinite from by cases b <;> rfl]
      exact foldl_add_start_nonfinite rest
    · simp only [List.foldl_cons]
      exact ih _ hmem

theorem foldl_addRecord_mse (l : List MetricRecord) :
    ∀ z : MetricRecord,
      (l.foldl addRecord z).mse = (l.map (fun r => r.mse)).foldl FVal.add z.mse := by
  induction l with
  | nil => intro z; rfl
  | cons r rest ih =>
    intro z
    simp only [List.foldl_cons, List.map_cons]
    rw [ih]
    rfl

theorem foldl_addRecord_rel_l2 (l : List MetricRecord) :
    ∀ z : MetricRecord,
      (l.foldl addRecord z).rel_l2 =
        (l.map (fun r => r.rel_l2)).foldl FVal.add z.rel_l2 := by
  induction l with
  | nil => intro z; rfl
  | cons r rest ih =>
    intro z
    simp only [List.foldl_cons, List.map_cons]
    rw [ih]
    rfl

theorem fold_metrics_mse (sqrtFn : ℚ → ℚ) (l2f h1f : LossFn) (m : ModelFn)
    (samples : List Sample) :
    ((samples.map (fun smp =>
      sampleMetrics sqrtFn l2f h1f m (tFlat smp.x) (tFlat smp.y))).foldl
      addRecord zeroRecord).mse =
    FVal.fin ((samples.map (fun smp => mseQ (m (tFlat smp.x)) (tFlat smp.y))).sum) := by
  rw [foldl_addRecord_mse]
  rw [List.map_map]
  have hcomp : ((fun r : MetricRecord => r.mse) ∘ (fun smp : Sample =>
      sampleMetrics sqrtFn l2f h1f m (tFlat smp.x) (tFlat smp.y))) =
      (FVal.fin ∘ (fun smp : Sample => mseQ (m (tFlat smp.x)) (tFlat smp.y))) := by
    funext smp
    rfl
  rw [hcomp]
  rw [← List.map_map FVal.fin
    (fun smp : Sample => mseQ (m (tFlat smp.x)) (tFlat smp.y))]
  rw [show zeroRecord.mse = FVal.fin 0 from rfl]
  rw [foldl_add_fin]
  rw [zero_add]

theorem fold_metrics_rel_l2 (sqrtFn : ℚ → ℚ) (l2f h1f : LossFn) (m : ModelFn)
    (samples : List Sample) :
    ((samples.map (fun smp =>
      sampleMetrics sqrtFn l2f h1f m (tFlat smp.x) (tFlat smp.y))).foldl
      addRecord zeroRecord).rel_l2 =
    (samples.map (fun smp =>
      FVal.div (FVal.fin (norm2 sqrtFn (subQ (m (tFlat smp.x)) (tFlat smp.y))))
        (FVal.fin (norm2 sqrtFn (tFlat smp.y))))).foldl FVal.add (FVal.fin 0) := by
  rw [foldl_addRecord_rel_l2]
  rw [List.map_map]
  rfl

/-- C4: in `evaluate_models` over a source of `N ≥ 1` samples with
distinctly named predictors, the invocation trace is exactly the ordered
product — every predictor is applied to every sample exactly once, sample
index ascending, predictors in dictionary order inside each sample — and
each returned record is the fold of that predictor's own per-sample
metric records (so no predictor's accumulation affects another's), with
every accumulator divided by `N` after the loop. -/
theorem evaluate_models_per_model (sqrtFn : ℚ → ℚ) (l2f h1f : LossFn)
    (models : List (String × ModelFn)) (ds : Dataset)
    (hnd : (models.map Prod.fst).Nodup) (hN : ds.samples ≠ []) :
    evaluate_models sqrtFn l2f h1f models ds =
      Except.ok
        (models.map (fun p =>
          (p.1, divRecord
            ((ds.samples.map (fun smp =>
              sampleMetrics sqrtFn l2f h1f p.2 (tFlat smp.x) (tFlat smp.y))).foldl
              addRecord zeroRecord)
            ds.samples.length)),
         (List.range ds.samples.length).flatMap
           (fun i => models.map (fun p => (i, p.1)))) :=
  evaluate_models_closed_form sqrtFn l2f h1f models ds hnd hN

/-- Witness: the batch-evaluation theorem applied to one predictor on the
one-sample dataset. -/
theorem evaluate_models_per_model_witness :
    evaluate_models (fun q => q) (fun _ _ => 0) (fun _ _ => 0)
      [("a", fun l => l)] dsOne =
      Except.ok
        ([("a", (fun l : List ℚ => l))].map (fun p =>
          (p.1, divRecord
            ((dsOne.samples.map (fun smp =>
              sampleMetrics (fun q => q) (fun _ _ => 0) (fun _ _ => 0) p.2
                (tFlat smp.x) (tFlat smp.y))).foldl
              addRecord zeroRecord)
            dsOne.samples.length)),
         (List.range dsOne.samples.length).flatMap
           (fun i => [("a", (fun l : List ℚ => l))].map (fun p => (i, p.1)))) :=
  evaluate_models_per_model (fun q => q) (fun _ _ => 0) (fun _ _ => 0)
    [("a", fun l => l)] dsOne (by simp) (by simp [dsOne])

theorem subQ_self (v : List ℚ) : subQ v v = v.map (fun _ => (0 : ℚ)) := by
  induction v with
  | nil => rfl
  | cons a rest ih =>
    simp only [subQ, List.zipWith_cons_cons, List.map_cons] at ih ⊢
    rw [show a - a = (0 : ℚ) from sub_self a, ih]

theorem sumSq_zeros (v : List ℚ) : sumSq (v.map (fun _ => (0 : ℚ))) = 0 := by
  rw [sumSq, List.map_map]
  apply List.sum_eq_zero
  intro x hx
  obtain ⟨a, _, rfl⟩ := List.mem_map.mp hx
  simp

theorem mseQ_self (v : List ℚ) : mseQ v v = 0 := by
  rw [mseQ, subQ_self, sumSq_zeros, zero_div]

theorem subQ_map_add_const (v : List ℚ) (c : ℚ) :
    subQ (v.map (fun a => a + c)) v = v.map (fun _ => c) := by
  induction v with
  | nil => rfl
  | cons a rest ih =>
    simp only [subQ, List.map_cons, List.zipWith_cons_cons] at ih ⊢
    rw [ih]
    congr 1
    ring

theorem mseQ_add_const (v : List ℚ) (c : ℚ) (hv : v ≠ []) :
    mseQ (v.map (fun a => a + c)) v = c * c := by
  rw [mseQ, subQ_map_add_const]
  have hsum : sumSq (v.map (fun _ => c)) = v.length * (c * c) := by
    rw [sumSq, List.map_map]
    rw [List.sum_eq_card_nsmul _ (c * c) ?_]
    · rw [List.length_map, nsmul_eq_mul]
    · intro x hx
      obtain ⟨a, _, rfl⟩ := List.mem_map.mp hx
      rfl
  rw [hsum, List.length_map]
  have h0 : ((v.length : ℚ)) ≠ 0 :=
    Nat.cast_ne_zero.mpr (fun hh => hv (List.length_eq_zero.mp hh))
  exact mul_div_cancel_left₀ (c * c) h0

/-- C5: for two predictors on any dataset (with nonempty targets), where
the first returns exactly the sample's target and the second returns the
target plus a constant `c ≠ 0` everywhere, the first predictor's averaged
`mse` result is `0` and the second's equals `c²`. -/
theorem evaluate_models_identity_and_offset (sqrtFn : ℚ → ℚ) (l2f h1f : LossFn)
    (m1 m2 : ModelFn) (c : ℚ) (ds : Dataset)
    (hc : c ≠ 0) (hN : ds.samples ≠ [])
    (hne : ∀ smp ∈ ds.samples, tFlat smp.y ≠ [])
    (hm1 : ∀ smp ∈ ds.samples, m1 (tFlat smp.x) = tFlat smp.y)
    (hm2 : ∀ smp ∈ ds.samples, m2 (tFlat smp.x) = (tFlat smp.y).map (fun a => a + c)) :
    ∃ res tra,
      evaluate_models sqrtFn l2f h1f [("identity", m1), ("offset", m2)] ds =
        Except.ok (res, tra) ∧
      res.map (fun p => (p.1, p.2.mse)) =
        [("identity", FVal.fin 0), ("offset", FVal.fin (c * c))] := by
  have hNQ : ((ds.samples.length : ℚ)) ≠ 0 :=
    Nat.cast_ne_zero.mpr (fun hh => hN (List.length_eq_zero.mp hh))
  have hclosed := evaluate_models_closed_form sqrtFn l2f h1f
    [("identity", m1), ("offset", m2)] ds (by simp) hN
  refine ⟨_, _, hclosed, ?_⟩
  simp only [List.map_cons, List.map_nil]
  have h1 : ((ds.samples.map (fun smp =>
      sampleMetrics sqrtFn l2f h1f m1 (tFlat smp.x) (tFlat smp.y))).foldl
      addRecord zeroRecord).mse = FVal.fin 0 := by
    rw [fold_metrics_mse]
    have hz : ds.samples.map (fun smp => mseQ (m1 (tFlat smp.x)) (tFlat smp.y)) =
        ds.samples.map (fun _ => (0 : ℚ)) :=
      List.map_congr_left (fun smp hsmp => by rw [hm1 smp hsmp, mseQ_self])
    rw [hz]
    congr 1
    apply List.sum_eq_zero
    intro x hx
    obtain ⟨a, _, rfl⟩ := List.mem_map.mp hx
    rfl
  have h2 : ((ds.samples.map (fun smp =>
      sampleMetrics sqrtFn l2f h1f m2 (tFlat smp.x) (tFlat smp.y))).foldl
      addRecord zeroRecord).mse = FVal.fin (ds.samples.length * (c * c)) := by
    rw [fold_metrics_mse]
    have hz : ds.samples.map (fun smp => mseQ (m2 (tFlat smp.x)) (tFlat smp.y)) =
        ds.samples.map (fun _ => c * c) :=
      List.map_congr_left (fun smp hsmp => by
        rw [hm2 smp hsmp, mseQ_add_const _ _ (hne smp hsmp)])
    rw [hz]
    congr 1
    rw [List.sum_eq_card_nsmul _ (c * c) ?_]
    · rw [List.length_map, nsmul_eq_mul]
    · intro x hx
      obtain ⟨a, _, rfl⟩ := List.mem_map.mp hx
      rfl
  simp only [show ∀ r : MetricRecord, ∀ n : ℕ, (divRecord r n).mse = r.mse.divN n
    from fun r n => rfl]
  rw [h1, h2]
  rw [show FVal.divN (FVal.fin 0) ds.samples.length = FVal.fin 0 from by
    simp [FVal.divN, FVal.div, hNQ]]
  rw [show FVal.divN (FVal.fin (ds.samples.length * (c * c))) ds.samples.length =
      FVal.fin (c * c) from by
    simp [FVal.divN, FVal.div, hNQ]]

/-- Witness: the identity/offset theorem at `c = 1` on the one-sample
dataset whose input equals its target. -/
theorem evaluate_models_identity_and_offset_witness :
    ∃ res tra,
      evaluate_models (fun q => q) (fun _ _ => 0) (fun _ _ => 0)
        [("identity", fun l => l), ("offset", fun l => l.map (fun a => a + 1))]
        dsOne = Except.ok (res, tra) ∧
      res.map (fun p => (p.1, p.2.mse)) =
        [("identity", FVal.fin 0), ("offset", FVal.fin (1 * 1))] :=
  evaluate_models_identity_and_offset (fun q => q) (fun _ _ => 0) (fun _ _ => 0)
    (fun l => l) (fun l => l.map (fun a => a + 1)) 1 dsOne one_ne_zero
    (by simp [dsOne])
    (by intro smp h; simp only [dsOne, List.mem_singleton] at h; subst h
        simp [tFlat])
    (by intro smp h; simp only [dsOne, List.mem_singleton] at h; subst h; rfl)
    (by intro smp h; simp only [dsOne, List.mem_singleton] at h; subst h; rfl)

/-- C8: the per-sample `rel_l2` of `evaluate_models` is the 2-norm of the
difference divided by the 2-norm of the target, computed directly; on a
zero-norm target no error is raised and nothing is clamped — the division
is still performed and the resulting non-finite value propagates through
the accumulator into the returned record. -/
theorem rel_l2_zero_norm (sqrtFn : ℚ → ℚ) (l2f h1f : LossFn) (m : ModelFn)
    (nm : String) (ds : Dataset) (smp : Sample)
    (hsq0 : sqrtFn 0 = 0)
    (hmem : smp ∈ ds.samples) (hz : sumSq (tFlat smp.y) = 0) :
    (∀ x y : List ℚ, (sampleMetrics sqrtFn l2f h1f m x y).rel_l2 =
      FVal.div (FVal.fin (norm2 sqrtFn (subQ (m x) y)))
        (FVal.fin (norm2 sqrtFn y))) ∧
    ∃ res tra, evaluate_models sqrtFn l2f h1f [(nm, m)] ds = Except.ok (res, tra) ∧
      res.map (fun p => (p.1, p.2.rel_l2)) = [(nm, FVal.nonfinite)] := by
  refine ⟨fun x y => rfl, ?_⟩
  have hN : ds.samples ≠ [] := List.ne_nil_of_mem hmem
  have hclosed := evaluate_models_closed_form sqrtFn l2f h1f [(nm, m)] ds
    (by simp) hN
  refine ⟨_, _, hclosed, ?_⟩
  simp only [List.map_cons, List.map_nil]
  simp only [show ∀ r : MetricRecord, ∀ n : ℕ,
    (divRecord r n).rel_l2 = r.rel_l2.divN n from fun r n => rfl]
  rw [fold_metrics_rel_l2]
  have hmemv : FVal.nonfinite ∈ ds.samples.map (fun smp2 =>
      FVal.div (FVal.fin (norm2 sqrtFn (subQ (m (tFlat smp2.x)) (tFlat smp2.y))))
        (FVal.fin (norm2 sqrtFn (tFlat smp2.y)))) := by
    refine List.mem_map.mpr ⟨smp, hmem, ?_⟩
    have hd : norm2 sqrtFn (tFlat smp.y) = 0 := by rw [norm2, hz, hsq0]
    rw [hd]
    simp [FVal.div]
  rw [foldl_add_nonfinite_mem _ _ hmemv]
  rfl

/-- Witness: the zero-norm-target theorem on the concrete dataset whose
single sample has an identically zero target. -/
theorem rel_l2_zero_norm_witness :
    ∃ res tra,
      evaluate_models (fun q => q) (fun _ _ => 0) (fun _ _ => 0)
        [("m", fun l => l)] dsZeroTarget = Except.ok (res, tra) ∧
      res.map (fun p => (p.1, p.2.rel_l2)) = [("m", FVal.nonfinite)] :=
  (rel_l2_zero_norm (fun q => q) (fun _ _ => 0) (fun _ _ => 0) (fun l => l)
    "m" dsZeroTarget { x := [[1]], y := [[0]] } rfl
    (List.mem_singleton.mpr rfl) (by simp [tFlat, sumSq])).2

/-- Counterexample to C10 as stated: on the empty dataset with an empty
predictor dictionary, `evaluate_models` does not raise a division-by-zero
error — the averaging loop iterates over zero names, so the call returns
an (empty) result. -/
theorem mapM_err {α β : Type} (f : α → Except String β) (e : String)
    (hf : ∀ a, f a = Except.error e) (p : α) (rest : List α) :
    (p :: rest).mapM f = Except.error e := by
  rw [List.mapM_cons, hf p]
  rfl

theorem empty_dataset_counterexample :
    evaluate_models (fun q => q) (fun _ _ => 0) (fun _ _ => 0) [] emptyDS =
      Except.ok ([], []) := rfl

/-- C10 (amended): on an empty dataset (`N = 0`), `sample_iterative`
raises while fetching `dataset[0]` for the initial condition — before any
stacking of window buffers occurs — and `evaluate_models` raises
`ZeroDivisionError` while averaging by `N` provided at least one
predictor was supplied; with an empty predictor dictionary it instead
returns an empty results record. -/
theorem empty_dataset_failures (sqrtFn : ℚ → ℚ) (l2f h1f : LossFn)
    (models : List (String × ModelFn)) (M : TModel) (ds : Dataset)
    (hN : ds.samples = []) :
    (models ≠ [] → evaluate_models sqrtFn l2f h1f models ds =
      Except.error "ZeroDivisionError: float division by zero") ∧
    sample_iterative_trace M ds = Except.error "index out of range" ∧
    sample_iterative_stitched M ds = Except.error "index out of range" ∧
    evaluate_models sqrtFn l2f h1f [] ds = Except.ok ([], []) := by
  obtain ⟨samples, depth⟩ := ds
  simp only at hN
  subst hN
  refine ⟨?_, rfl, rfl, rfl⟩
  intro hm
  cases models with
  | nil => exact absurd rfl hm
  | cons p rest =>
    simp only [evaluate_models, List.length_nil]
    rw [mapM_err _ "ZeroDivisionError: float division by zero"
      (fun a => by simp) p rest]
    rfl

/-- Witness: the empty-dataset theorem applied with one concrete
predictor and the concrete empty dataset. -/
theorem empty_dataset_failures_witness :
    evaluate_models (fun q => q) (fun _ _ => 0) (fun _ _ => 0)
      [("m", fun l => l)] emptyDS =
      Except.error "ZeroDivisionError: float division by zero" ∧
    sample_iterative_trace idTM emptyDS = Except.error "index out of range" :=
  ⟨(empty_dataset_failures (fun q => q) (fun _ _ => 0) (fun _ _ => 0)
      [("m", fun l => l)] idTM emptyDS rfl).1 (by simp),
   (empty_dataset_failures (fun q => q) (fun _ _ => 0) (fun _ _ => 0)
      [("m", fun l => l)] idTM emptyDS rfl).2.1⟩

/-- C6: for `kind = "animation"` the presentation windowing of
`sample_iterative` slices the already finalized stitched sequences — a
forward slice of length `index` (one full window of length `D` when no
index is given) — while the metrics, when requested, are computed from the
full stitched sequences before any windowing, so the windowing never
affects the metric values. -/
theorem rollout_windowing_animation (l2f h1f : LossFn) (M : TModel)
    (ds : Dataset) (cm : Bool) (index : Option ℕ) (y_true y_pred : List Frame)
    (hok : sample_iterative_stitched M ds = Except.ok (y_true, y_pred)) :
    sample_iterative_run l2f h1f M ds "animation" cm index =
      Except.ok
        ((if cm then some (rolloutMetrics l2f h1f y_true y_pred ds.samples.length)
          else none),
         ((y_true.drop (ds.samples.length / 2)).take (index.getD ds.depth),
          (y_pred.drop (ds.samples.length / 2)).take (index.getD ds.depth))) := by
  unfold sample_iterative_run
  rw [hok]
  simp [windowForKind, pySlice]

/-- C7: for `kind = "pressure"` the presentation windowing returns exactly
the `D` consecutive stitched entries starting at the requested index —
the Python slice `stitched[index : index + D]`, which equals
`(stitched.drop index).take D` and has length `min D (N - index)`, i.e.
fewer entries at the sequence tail — with the index defaulting to `N // 2`
when none is given. -/
theorem rollout_windowing_pressure (l2f h1f : LossFn) (M : TModel)
    (ds : Dataset) (cm : Bool) (index : Option ℕ) (y_true y_pred : List Frame)
    (hok : sample_iterative_stitched M ds = Except.ok (y_true, y_pred)) :
    sample_iterative_run l2f h1f M ds "pressure" cm index =
      Except.ok
        ((if cm then some (rolloutMetrics l2f h1f y_true y_pred ds.samples.length)
          else none),
         (pySlice y_true (index.getD (ds.samples.length / 2))
            (index.getD (ds.samples.length / 2) + ds.depth),
          pySlice y_pred (index.getD (ds.samples.length / 2))
            (index.getD (ds.samples.length / 2) + ds.depth))) ∧
    (∀ (l : List Frame) (a : ℕ),
      pySlice l a (a + ds.depth) = (l.drop a).take ds.depth ∧
      (pySlice l a (a + ds.depth)).length = min ds.depth (l.length - a)) := by
  constructor
  · unfold sample_iterative_run
    rw [hok]
    simp [windowForKind, pySlice]
  · intro l a
    constructor
    · simp [pySlice]
    · simp [pySlice, Nat.sub_min_sub_right]

/-- The `N = 5`, `D = 3` rollout of the identity model, evaluated
concretely: used to discharge the stitched-output hypothesis of the
windowing theorems. -/
theorem ds53_stitched :
    sample_iterative_stitched idTM ds53 =
      Except.ok ([[0], [1], [2], [3], [4]], [[0], [10], [20], [12], [22]]) := by
  simp [sample_iterative_stitched, sample_iterative_trace, ds53, rolloutLoop,
    runWindow, lastFrame, stitchedOf, idTM, List.set, List.dropLast,
    Fin.getElem_fin, List.getElem_cons_succ, List.getElem_cons_zero]

/-- Witness: the animation-windowing theorem applied to the concrete
`N = 5`, `D = 3` rollout with no explicit index. -/
theorem rollout_windowing_animation_witness :
    sample_iterative_run (fun _ _ => 0) (fun _ _ => 0) idTM ds53
      "animation" false none =
      Except.ok (none,
        ((([[0], [1], [2], [3], [4]] : List Frame).drop
            (ds53.samples.length / 2)).take ((none : Option ℕ).getD ds53.depth),
         (([[0], [10], [20], [12], [22]] : List Frame).drop
            (ds53.samples.length / 2)).take ((none : Option ℕ).getD ds53.depth))) :=
  rollout_windowing_animation (fun _ _ => 0) (fun _ _ => 0) idTM ds53 false none
    [[0], [1], [2], [3], [4]] [[0], [10], [20], [12], [22]] ds53_stitched

/-- Witness: the pressure-windowing theorem applied to the concrete
`N = 5`, `D = 3` rollout at index `1`. -/
theorem rollout_windowing_pressure_witness :
    sample_iterative_run (fun _ _ => 0) (fun _ _ => 0) idTM ds53
      "pressure" false (some 1) =
      Except.ok (none,
        (pySlice ([[0], [1], [2], [3], [4]] : List Frame)
          ((some 1 : Option ℕ).getD (ds53.samples.length / 2))
          ((some 1 : Option ℕ).getD (ds53.samples.length / 2) + ds53.depth),
         pySlice ([[0], [10], [20], [12], [22]] : List Frame)
          ((some 1 : Option ℕ).getD (ds53.samples.length / 2))
          ((some 1 : Option ℕ).getD (ds53.samples.length / 2) + ds53.depth))) :=
  (rollout_windowing_pressure (fun _ _ => 0) (fun _ _ => 0) idTM ds53 false
    (some 1) [[0], [1], [2], [3], [4]] [[0], [10], [20], [12], [22]]
    ds53_stitched).1

/-- C9: the `kind` dispatch of `plot_inference_results_direct` raises an
error exactly when `kind` is not one of the three recognized values
`"pressure"`, `"animation"`, `"error"`; each recognized kind selects its
corresponding rendering branch, and any other string is rejected
immediately with an explicit `ValueError` — no implicit fallthrough. -/
theorem plot_kind_dispatch :
    (∀ kind : String,
      (∃ b, plot_inference_results_direct kind = Except.ok b) ↔
        (kind = "pressure" ∨ kind = "animation" ∨ kind = "error")) ∧
    plot_inference_results_direct "pressure" = Except.ok PlotBranch.pressure ∧
    plot_inference_results_direct "animation" = Except.ok PlotBranch.animation ∧
    plot_inference_results_direct "error" = Except.ok PlotBranch.errorPlot ∧
    (∀ kind : String, kind ≠ "pressure" → kind ≠ "animation" → kind ≠ "error" →
      plot_inference_results_direct kind = Except.error
        ("Unknown kind: " ++ kind ++
          ". Choose from 'pressure', 'animation', or 'error'.")) := by
  refine ⟨?_, ?_, ?_, ?_, ?_⟩
  · intro kind
    constructor
    · rintro ⟨b, hb⟩
      by_cases h1 : kind = "pressure"
      · exact Or.inl h1
      by_cases h2 : kind = "animation"
      · exact Or.inr (Or.inl h2)
      by_cases h3 : kind = "error"
      · exact Or.inr (Or.inr h3)
      simp [plot_inference_results_direct, h1, h2, h3] at hb
    · rintro (h | h | h)
      · subst h
        exact ⟨PlotBranch.pressure, by simp [plot_inference_results_direct]⟩
      · subst h
        exact ⟨PlotBranch.animation, by simp [plot_inference_results_direct]⟩
      · subst h
        exact ⟨PlotBranch.errorPlot, by simp [plot_inference_results_direct]⟩
  · simp [plot_inference_results_direct]
  · simp [plot_inference_results_direct]
  · simp [plot_inference_results_direct]
  · intro kind h1 h2 h3
    simp [plot_inference_results_direct, h1, h2, h3]

/-- Witness: the dispatch theorem applied to a concrete unrecognized
kind. -/
theorem plot_kind_dispatch_witness :
    plot_inference_results_direct "bogus" = Except.error
      ("Unknown kind: " ++ "bogus" ++
        ". Choose from 'pressure', 'animation', or 'error'.") :=
  plot_kind_dispatch.2.2.2.2 "bogus" (by decide) (by decide) (by decide)

end AcousticEval
